import Mathlib

/-!
A shallow embedding of the storage engine in
`src/thalos_prime/stargate_storage.py` (packet codec, Merkle builder,
crystalline cache, photon vault), together with theorems settling the
specification's claims about it.

Modelling conventions:
* byte strings are `List Nat` (each entry one byte);
* the external zlib primitives are parameters `compress : Bytes → Bytes`
  and `decompress : Bytes → Option Bytes` (decompression can fail);
* the external sha256 primitive is a parameter `H : Bytes → Bytes`;
* wall-clock readings (`time.time()`) are explicit rational parameters,
  one per call site;
* Python exceptions surface as `Option`/`Except` results;
* the SQLite ledger is a list of rows in insertion order with an
  explicit autoincrement counter.
-/

namespace Thalos

/-- Byte strings as lists of naturals (one entry per byte). -/
abbrev Bytes := List Nat

/-- Big-endian 4-byte encoding used by the `I` field of `struct.pack` with
format string BIH. -/
def u32BE (n : Nat) : Bytes :=
  [n / 2 ^ 24 % 256, n / 2 ^ 16 % 256, n / 2 ^ 8 % 256, n % 256]

/-- Big-endian 2-byte encoding used by the `H` field of `struct.pack` with
format string BIH. -/
def u16BE (n : Nat) : Bytes :=
  [n / 2 ^ 8 % 256, n % 256]

/-- `MerkleChainBuilder.encode_photon_packet`.  `struct.pack` raises
`struct.error` when the original length exceeds the u32 range or the encoded
length exceeds the u16 range; the raised exception is modelled as `none`. -/
def encode_photon_packet (compress : Bytes → Bytes) (data : Bytes)
    (compression : Bool) : Option Bytes :=
  if compression then
    let compressed := compress data
    if data.length ≤ 4294967295 ∧ compressed.length ≤ 65535 then
      some (1 :: (u32BE data.length ++ u16BE compressed.length ++ compressed))
    else none
  else
    if data.length ≤ 4294967295 ∧ data.length ≤ 65535 then
      some (0 :: (u32BE data.length ++ u16BE data.length ++ data))
    else none

/-- `MerkleChainBuilder.decode_photon_packet`.  The source unpacks
`original_size` and `packet_size` from the header but never reads them; a
packet shorter than the 7-byte header raises `ValueError`, and a failed
decompression of a flag-1 payload raises `zlib.error`; both are modelled as
`Except.error ()`. -/
def decode_photon_packet (decompress : Bytes → Option Bytes)
    (packet : Bytes) : Except Unit Bytes :=
  if packet.length < 7 then Except.error ()
  else
    let compressed_flag := packet.headI
    let payload := packet.drop 7
    if compressed_flag = 1 then
      match decompress payload with
      | some d => Except.ok d
      | none => Except.error ()
    else Except.ok payload

/-- An oversized compressed form makes `struct.pack` raise, so encoding
returns `none`. -/
theorem encode_compress_none (compress : Bytes → Bytes) (data : Bytes)
    (h : 65535 < (compress data).length) :
    encode_photon_packet compress data true = none := by
  simp only [encode_photon_packet, if_true]
  rw [if_neg]
  intro ⟨_, h2⟩
  omega

/-- C4: the packet codec round-trips: decoding an encoding (with or without
compression) of a payload within the encoder's size limits returns the
original payload, assuming the decompressor inverts the compressor. -/
theorem claim_C4 (compress : Bytes → Bytes) (decompress : Bytes → Option Bytes)
    (hinv : ∀ b, decompress (compress b) = some b) (p pkt : Bytes) :
    (encode_photon_packet compress p true = some pkt →
      decode_photon_packet decompress pkt = Except.ok p) ∧
    (encode_photon_packet compress p false = some pkt →
      decode_photon_packet decompress pkt = Except.ok p) := by
  constructor
  · intro henc
    simp only [encode_photon_packet, if_true] at henc
    split at henc
    · cases henc
      simp [decode_photon_packet, u32BE, u16BE, hinv]
    · cases henc
  · intro henc
    simp only [encode_photon_packet, Bool.false_eq_true, if_false] at henc
    split at henc
    · cases henc
      simp [decode_photon_packet, u32BE, u16BE]
    · cases henc

/-- C4 witness: a concrete round-trip, with the identity as the
compression scheme, in both modes. -/
theorem claim_C4_witness :
    decode_photon_packet (fun b => some b) [1, 0, 0, 0, 1, 0, 1, 5] =
      Except.ok [5] ∧
    decode_photon_packet (fun b => some b) [0, 0, 0, 0, 1, 0, 1, 5] =
      Except.ok [5] :=
  ⟨(claim_C4 (fun b => b) (fun b => some b) (fun _ => rfl) [5]
      [1, 0, 0, 0, 1, 0, 1, 5]).1 (by decide),
   (claim_C4 (fun b => b) (fun b => some b) (fun _ => rfl) [5]
      [0, 0, 0, 0, 1, 0, 1, 5]).2 (by decide)⟩

/-- C5: a payload whose compressed form exceeds 65535 bytes makes encoding
fail (the 2-byte length field cannot hold it), rather than producing a
truncated packet. -/
theorem claim_C5 (compress : Bytes → Bytes) (data : Bytes)
    (h : 65535 < (compress data).length) :
    encode_photon_packet compress data true = none :=
  encode_compress_none compress data h

/-- C5 witness: a compressor producing 65536 bytes makes encoding fail on a
concrete payload. -/
theorem claim_C5_witness :
    encode_photon_packet (fun _ => List.replicate 65536 0) [3] true = none :=
  claim_C5 (fun _ => List.replicate 65536 0) [3]
    (by rw [List.length_replicate]; omega)

/-- C9: the decoder never validates the header length fields: any packet of
length at least 7 whose flag byte is not 1 decodes to all bytes after the
7-byte header, and decoding fails exactly when the packet is shorter than 7
bytes or a flag-1 payload fails to decompress. -/
theorem claim_C9 (decompress : Bytes → Option Bytes) (packet : Bytes) :
    (7 ≤ packet.length → packet.headI ≠ 1 →
      decode_photon_packet decompress packet = Except.ok (packet.drop 7)) ∧
    (decode_photon_packet decompress packet = Except.error () ↔
      packet.length < 7 ∨
        (packet.headI = 1 ∧ decompress (packet.drop 7) = none)) := by
  constructor
  · intro hlen hflag
    simp [decode_photon_packet, Nat.not_lt.mpr hlen, hflag]
  · by_cases hlen : packet.length < 7
    · simp [decode_photon_packet, hlen]
    · by_cases hflag : packet.headI = 1
      · cases hdec : decompress (packet.drop 7) <;>
          simp [decode_photon_packet, hlen, hflag, hdec]
      · simp [decode_photon_packet, hlen, hflag]

/-- C9 witness: a packet with flag byte 2 and header length fields that
disagree with the actual payload still decodes to the trailing bytes. -/
theorem claim_C9_witness :
    decode_photon_packet (fun _ => none) [2, 9, 9, 9, 9, 9, 9, 5, 6] =
      Except.ok [5, 6] :=
  (claim_C9 (fun _ => none) [2, 9, 9, 9, 9, 9, 9, 5, 6]).1
    (by decide) (by decide)

/-- Lowercase hex digit for a value below 16, as produced by `bytes.hex()`. -/
def hexChar (n : Nat) : Char :=
  Char.ofNat (if n < 10 then 48 + n else 87 + n)

/-- Lowercase hexadecimal rendering of a byte string (`bytes.hex()` /
`hexdigest()`). -/
def bytesToHex (bs : Bytes) : String :=
  String.mk (bs.flatMap fun b => [hexChar (b / 16 % 16), hexChar (b % 16)])

/-- ASCII bytes of the sentinel literal hashed for an empty chunk list. -/
def emptySentinel : Bytes := [101, 109, 112, 116, 121]

/-- One pass of the Merkle loop: hash adjacent pairs, pairing a trailing odd
element with itself. -/
def mergeLevel (H : Bytes → Bytes) : List Bytes → List Bytes
  | [] => []
  | [a] => [H (a ++ a)]
  | a :: b :: rest => H (a ++ b) :: mergeLevel H rest

theorem mergeLevel_length (H : Bytes → Bytes) :
    ∀ l : List Bytes, (mergeLevel H l).length = (l.length + 1) / 2
  | [] => rfl
  | [_] => by simp [mergeLevel]
  | _ :: _ :: rest => by
    simp only [mergeLevel, List.length_cons, mergeLevel_length H rest]
    omega

/-- The `while len(current_level) > 1` loop of `compute_merkle_root`,
followed by taking the single remaining element. -/
def merkleLoop (H : Bytes → Bytes) (level : List Bytes) : Bytes :=
  if h : level.length ≤ 1 then level.headI
  else merkleLoop H (mergeLevel H level)
termination_by level.length
decreasing_by rw [mergeLevel_length]; omega

/-- `MerkleChainBuilder.compute_merkle_root`, with the sha256 primitive as
the parameter `H`. -/
def compute_merkle_root (H : Bytes → Bytes) (data_chunks : List Bytes) :
    String :=
  if data_chunks = [] then bytesToHex (H emptySentinel)
  else bytesToHex (merkleLoop H (data_chunks.map H))

/-- The chunking policy of `materialize`: split the payload into 256-byte
chunks, the final chunk possibly shorter; the empty payload yields no
chunks. -/
def chunk256 (data : Bytes) : List Bytes :=
  if h : data = [] then []
  else data.take 256 :: chunk256 (data.drop 256)
termination_by data.length
decreasing_by
  have hpos : 0 < data.length := List.length_pos.mpr h
  rw [List.length_drop]
  omega

/-- C7: the Merkle root of the empty chunk list is the hex digest of the
fixed sentinel (not an error), and the root is deterministic: equal inputs
give equal hex strings. -/
theorem claim_C7 :
    (∀ H : Bytes → Bytes,
      compute_merkle_root H [] = bytesToHex (H emptySentinel)) ∧
    (∀ (H : Bytes → Bytes) (c1 c2 : List Bytes), c1 = c2 →
      compute_merkle_root H c1 = compute_merkle_root H c2) := by
  constructor
  · intro H
    simp [compute_merkle_root]
  · intro H c1 c2 h
    rw [h]

/-- C7 witness: a concrete evaluation of both conjuncts. -/
theorem claim_C7_witness :
    compute_merkle_root (fun b => b) [] = bytesToHex emptySentinel ∧
    compute_merkle_root (fun b => b) [[1], [2]] =
      compute_merkle_root (fun b => b) [[1], [2]] :=
  ⟨claim_C7.1 (fun b => b), claim_C7.2 (fun b => b) [[1], [2]] [[1], [2]] rfl⟩

/-- State of `CrystallineCache`.  `photon_chamber` is an association list in
Python dict insertion order; `resonance_freq` models the `defaultdict(int)`
(absent keys read 0) and `last_pulse` the plain dict, both as total maps —
deleted entries are reset to the default, which is never observed because
the source only reads them for keys present in the chamber. -/
structure CrystallineCache where
  max_photons : Nat
  photon_chamber : List (String × Bytes)
  resonance_freq : String → Nat
  last_pulse : String → ℚ
  total_queries : Nat
  photon_hits : Nat

/-- Pointwise update of a total map, modelling `d[k] = v`. -/
def setFn {α : Type} (f : String → α) (k : String) (v : α) : String → α :=
  fun x => if x = k then v else f x

/-- `CrystallineCache.__init__`. -/
def initCache (max_photons : Nat) : CrystallineCache :=
  ⟨max_photons, [], fun _ => 0, fun _ => 0, 0, 0⟩

/-- The resonance score `freq * (1.0 / (1.0 + age))` computed by
`_find_lowest_resonance`, over exact rationals in place of floats. -/
def resonanceScore (c : CrystallineCache) (current_time : ℚ)
    (key : String) : ℚ :=
  (c.resonance_freq key : ℚ) * (1 / (1 + (current_time - c.last_pulse key)))

/-- The scanning loop of `_find_lowest_resonance`: the accumulator is
`none` while `min_score` is still infinite and `victim` is `None`, and
`some (min_score, victim)` afterwards; a strict `<` keeps the first-found
entry on ties. -/
def findAux (score : String → ℚ) : List String → Option (ℚ × String) →
    Option (ℚ × String)
  | [], best => best
  | k :: rest, none => findAux score rest (some (score k, k))
  | k :: rest, some (m, v) =>
    if score k < m then findAux score rest (some (score k, k))
    else findAux score rest (some (m, v))

/-- `CrystallineCache._find_lowest_resonance`. -/
def find_lowest_resonance (c : CrystallineCache) (current_time : ℚ) :
    Option String :=
  (findAux (resonanceScore c current_time)
    (c.photon_chamber.map Prod.fst) none).map Prod.snd

/-- The eviction block of `CrystallineCache.beam_in` (run only on the
new-key path, when the chamber is at capacity): `del` of the three dict
entries for the victim, guarded by the Python truthiness test
`if victim_key:`, which also fails when the victim is the empty string. -/
def evictIfFull (c : CrystallineCache) (tScan : ℚ) : CrystallineCache :=
  if c.photon_chamber.length ≥ c.max_photons then
    match find_lowest_resonance c tScan with
    | some victim =>
      if victim == "" then c
      else
        { c with
          photon_chamber := c.photon_chamber.eraseP (fun p => p.1 == victim),
          resonance_freq := setFn c.resonance_freq victim 0,
          last_pulse := setFn c.last_pulse victim 0 }
    | none => c
  else c

/-- `CrystallineCache.beam_in`.  `tNow` is the `time.time()` read at entry
and `tScan` the one inside `_find_lowest_resonance`. -/
def beam_in (c : CrystallineCache) (nebula_key : String) (photon_data : Bytes)
    (tNow tScan : ℚ) : CrystallineCache :=
  if (c.photon_chamber.lookup nebula_key).isSome then
    { c with
      resonance_freq :=
        setFn c.resonance_freq nebula_key (c.resonance_freq nebula_key + 1),
      last_pulse := setFn c.last_pulse nebula_key tNow,
      photon_chamber := c.photon_chamber.map
        (fun p => if p.1 == nebula_key then (nebula_key, photon_data) else p) }
  else
    let c1 := evictIfFull c tScan
    { c1 with
      photon_chamber := c1.photon_chamber ++ [(nebula_key, photon_data)],
      resonance_freq := setFn c1.resonance_freq nebula_key 1,
      last_pulse := setFn c1.last_pulse nebula_key tNow }

/-- `CrystallineCache.beam_out`. -/
def beam_out (c : CrystallineCache) (nebula_key : String) (tNow : ℚ) :
    Option Bytes × CrystallineCache :=
  let c0 := { c with total_queries := c.total_queries + 1 }
  match c0.photon_chamber.lookup nebula_key with
  | some data =>
    (some data,
      { c0 with
        photon_hits := c0.photon_hits + 1,
        resonance_freq :=
          setFn c0.resonance_freq nebula_key (c0.resonance_freq nebula_key + 1),
        last_pulse := setFn c0.last_pulse nebula_key tNow })
  | none => (none, c0)

/-- `CrystallineCache.collapse_all` (clears the three dicts, keeping the
query counters). -/
def collapse_all (c : CrystallineCache) : CrystallineCache :=
  { c with
    photon_chamber := [],
    resonance_freq := fun _ => 0,
    last_pulse := fun _ => 0 }

/-- One cache operation, with its wall-clock readings. -/
inductive CacheOp where
  | beamIn (key : String) (data : Bytes) (tNow tScan : ℚ)
  | beamOut (key : String) (tNow : ℚ)
  | collapseAll

/-- Apply one cache operation to a cache state. -/
def applyOp (c : CrystallineCache) : CacheOp → CrystallineCache
  | .beamIn k d t1 t2 => beam_in c k d t1 t2
  | .beamOut k t => (beam_out c k t).2
  | .collapseAll => collapse_all c

/-- Run a sequence of cache operations from a given state. -/
def runOps (c : CrystallineCache) (ops : List CacheOp) : CrystallineCache :=
  ops.foldl applyOp c

/-- Whether an operation avoids the empty-string key in `beam_in`. -/
def opKeyOk : CacheOp → Bool
  | .beamIn k _ _ _ => k ≠ ""
  | _ => true

theorem findAux_isSome (score : String → ℚ) :
    ∀ (keys : List String) (best : Option (ℚ × String)),
      keys ≠ [] ∨ best.isSome → (findAux score keys best).isSome := by
  intro keys
  induction keys with
  | nil =>
    intro best h
    rcases h with h | h
    · exact absurd rfl h
    · simpa [findAux] using h
  | cons k rest ih =>
    intro best _
    cases best with
    | none => exact ih _ (Or.inr rfl)
    | some p =>
      obtain ⟨m0, v0⟩ := p
      simp only [findAux]
      by_cases hlt : score k < m0
      · rw [if_pos hlt]; exact ih _ (Or.inr rfl)
      · rw [if_neg hlt]; exact ih _ (Or.inr rfl)

theorem findAux_mem (score : String → ℚ) :
    ∀ (keys : List String) (best : Option (ℚ × String)) (m : ℚ) (v : String),
      findAux score keys best = some (m, v) →
      best = some (m, v) ∨ (v ∈ keys ∧ m = score v) := by
  intro keys
  induction keys with
  | nil =>
    intro best m v h
    exact Or.inl h
  | cons k rest ih =>
    intro best m v h
    cases best with
    | none =>
      simp only [findAux] at h
      rcases ih _ _ _ h with h' | ⟨hm, he⟩
      · simp only [Option.some.injEq, Prod.mk.injEq] at h'
        obtain ⟨hm, hv⟩ := h'
        subst hv
        exact Or.inr ⟨List.mem_cons_self _ _, hm.symm⟩
      · exact Or.inr ⟨List.mem_cons_of_mem _ hm, he⟩
    | some p =>
      obtain ⟨m0, v0⟩ := p
      simp only [findAux] at h
      by_cases hlt : score k < m0
      · rw [if_pos hlt] at h
        rcases ih _ _ _ h with h' | ⟨hm, he⟩
        · simp only [Option.some.injEq, Prod.mk.injEq] at h'
          obtain ⟨hm, hv⟩ := h'
          subst hv
          exact Or.inr ⟨List.mem_cons_self _ _, hm.symm⟩
        · exact Or.inr ⟨List.mem_cons_of_mem _ hm, he⟩
      · rw [if_neg hlt] at h
        rcases ih _ _ _ h with h' | ⟨hm, he⟩
        · exact Or.inl h'
        · exact Or.inr ⟨List.mem_cons_of_mem _ hm, he⟩

theorem findAux_min (score : String → ℚ) :
    ∀ (keys : List String) (best : Option (ℚ × String)) (m : ℚ) (v : String),
      findAux score keys best = some (m, v) →
      (∀ k ∈ keys, m ≤ score k) ∧
        ∀ m0 v0, best = some (m0, v0) → m ≤ m0 := by
  intro keys
  induction keys with
  | nil =>
    intro best m v h
    constructor
    · intro k hk
      exact absurd hk (List.not_mem_nil k)
    · intro m0 v0 hb
      rw [hb] at h
      simp only [findAux, Option.some.injEq, Prod.mk.injEq] at h
      exact le_of_eq h.1.symm
  | cons k rest ih =>
    intro best m v h
    cases best with
    | none =>
      simp only [findAux] at h
      obtain ⟨h1, h2⟩ := ih _ _ _ h
      have hk : m ≤ score k := h2 _ _ rfl
      constructor
      · intro x hx
        rcases List.mem_cons.mp hx with hx | hx
        · subst hx; exact hk
        · exact h1 _ hx
      · intro m0 v0 hb
        exact Option.noConfusion hb
    | some p =>
      obtain ⟨m0', v0'⟩ := p
      simp only [findAux] at h
      by_cases hlt : score k < m0'
      · rw [if_pos hlt] at h
        obtain ⟨h1, h2⟩ := ih _ _ _ h
        have hk : m ≤ score k := h2 _ _ rfl
        constructor
        · intro x hx
          rcases List.mem_cons.mp hx with hx | hx
          · subst hx; exact hk
          · exact h1 _ hx
        · intro m0 v0 hb
          simp only [Option.some.injEq, Prod.mk.injEq] at hb
          rw [← hb.1]
          exact le_of_lt (lt_of_le_of_lt hk hlt)
      · rw [if_neg hlt] at h
        obtain ⟨h1, h2⟩ := ih _ _ _ h
        have hb0 : m ≤ m0' := h2 _ _ rfl
        constructor
        · intro x hx
          rcases List.mem_cons.mp hx with hx | hx
          · subst hx; exact le_trans hb0 (not_lt.mp hlt)
          · exact h1 _ hx
        · intro m0 v0 hb
          simp only [Option.some.injEq, Prod.mk.injEq] at hb
          rw [← hb.1]
          exact hb0

/-- On a nonempty chamber, the eviction scan returns an occupant key whose
resonance score is minimal among all occupants. -/
theorem find_lowest_spec (c : CrystallineCache) (t : ℚ)
    (hne : c.photon_chamber ≠ []) :
    ∃ victim, find_lowest_resonance c t = some victim ∧
      victim ∈ c.photon_chamber.map Prod.fst ∧
      ∀ k ∈ c.photon_chamber.map Prod.fst,
        resonanceScore c t victim ≤ resonanceScore c t k := by
  have hkeys : c.photon_chamber.map Prod.fst ≠ [] := by
    simpa using hne
  have hsome := findAux_isSome (resonanceScore c t)
    (c.photon_chamber.map Prod.fst) none (Or.inl hkeys)
  obtain ⟨⟨m, v⟩, hfa⟩ := Option.isSome_iff_exists.mp hsome
  rcases findAux_mem _ _ _ _ _ hfa with h' | ⟨hmem, hscore⟩
  · cases h'
  · obtain ⟨h1, _⟩ := findAux_min _ _ _ _ _ hfa
    refine ⟨v, ?_, hmem, ?_⟩
    · simp [find_lowest_resonance, hfa]
    · intro k hk
      rw [← hscore]
      exact h1 _ hk

theorem evictIfFull_max (c : CrystallineCache) (t : ℚ) :
    (evictIfFull c t).max_photons = c.max_photons := by
  unfold evictIfFull
  split
  · cases find_lowest_resonance c t with
    | none => rfl
    | some v =>
      dsimp only
      split
      · rfl
      · rfl
  · rfl

theorem evictIfFull_chamber_subset (c : CrystallineCache) (t : ℚ) :
    ∀ p ∈ (evictIfFull c t).photon_chamber, p ∈ c.photon_chamber := by
  unfold evictIfFull
  split
  · cases find_lowest_resonance c t with
    | none => exact fun p hp => hp
    | some v =>
      dsimp only
      split
      · exact fun p hp => hp
      · exact fun p hp => List.mem_of_mem_eraseP hp
  · exact fun p hp => hp

theorem evictIfFull_of_nil (c : CrystallineCache) (t : ℚ)
    (h : c.photon_chamber = []) : evictIfFull c t = c := by
  have hfl : find_lowest_resonance c t = none := by
    simp [find_lowest_resonance, h, findAux]
  unfold evictIfFull
  rw [hfl]
  split
  · rfl
  · rfl

theorem evictIfFull_of_small (c : CrystallineCache) (t : ℚ)
    (h : ¬c.photon_chamber.length ≥ c.max_photons) : evictIfFull c t = c := by
  unfold evictIfFull
  rw [if_neg h]

/-- When the chamber is full, nonempty, and free of the empty-string key,
the eviction block removes exactly one occupant, one of minimal resonance
score. -/
theorem evictIfFull_evicts (c : CrystallineCache) (t : ℚ)
    (hfull : c.photon_chamber.length ≥ c.max_photons)
    (hne : c.photon_chamber ≠ [])
    (h2 : ∀ p ∈ c.photon_chamber, p.1 ≠ "") :
    ∃ v, v ∈ c.photon_chamber.map Prod.fst ∧
      (∀ k ∈ c.photon_chamber.map Prod.fst,
        resonanceScore c t v ≤ resonanceScore c t k) ∧
      (evictIfFull c t).photon_chamber =
        c.photon_chamber.eraseP (fun p => p.1 == v) ∧
      (evictIfFull c t).photon_chamber.length + 1 =
        c.photon_chamber.length := by
  obtain ⟨v, hfl, hvmem, hmin⟩ := find_lowest_spec c t hne
  obtain ⟨pv, hpv, hpv1⟩ := List.mem_map.mp hvmem
  have hv : v ≠ "" := hpv1 ▸ h2 _ hpv
  have hvbeq : (v == "") = false := by simp [hv]
  have hcham : (evictIfFull c t).photon_chamber =
      c.photon_chamber.eraseP (fun p => p.1 == v) := by
    unfold evictIfFull
    rw [if_pos hfull, hfl]
    simp [hvbeq]
  refine ⟨v, hvmem, hmin, hcham, ?_⟩
  rw [hcham]
  exact List.length_eraseP_add_one hpv (by simp [hpv1])

theorem beam_in_max (c : CrystallineCache) (key : String) (data : Bytes)
    (t1 t2 : ℚ) : (beam_in c key data t1 t2).max_photons = c.max_photons := by
  unfold beam_in
  split
  · rfl
  · exact evictIfFull_max c t2

theorem beam_in_overwrite_chamber (c : CrystallineCache) (key : String)
    (data : Bytes) (t1 t2 : ℚ)
    (hmem : (c.photon_chamber.lookup key).isSome) :
    (beam_in c key data t1 t2).photon_chamber =
      c.photon_chamber.map
        (fun p => if p.1 == key then (key, data) else p) := by
  unfold beam_in
  rw [if_pos hmem]

theorem beam_in_new_chamber (c : CrystallineCache) (key : String)
    (data : Bytes) (t1 t2 : ℚ)
    (hnew : ¬(c.photon_chamber.lookup key).isSome = true) :
    (beam_in c key data t1 t2).photon_chamber =
      (evictIfFull c t2).photon_chamber ++ [(key, data)] := by
  unfold beam_in
  rw [if_neg hnew]

/-- C6 counterexample: a cache at capacity 1 whose only occupant is the
empty-string key; inserting the distinct key `a` evicts nothing (the
truthiness guard `if victim_key:` skips the eviction), leaving two
entries. -/
theorem claim_C6_counterexample :
    (beam_in (beam_in (initCache 1) "" [1] 0 0) "a" [2] 0 0).photon_chamber
      = [("", [1]), ("a", [2])] := by decide

/-- C6 amended: when every occupant key is non-empty, inserting one more
distinct key into a cache at capacity evicts exactly one entry, and the
evicted key minimizes the resonance score `frequency * (1 / (1 + age))`
among the occupants at eviction time. -/
theorem claim_C6_amended (c : CrystallineCache) (key : String) (data : Bytes)
    (tNow tScan : ℚ)
    (hcap : c.photon_chamber.length = c.max_photons)
    (hpos : 1 ≤ c.max_photons)
    (hnew : c.photon_chamber.lookup key = none)
    (hne : ∀ p ∈ c.photon_chamber, p.1 ≠ "") :
    ∃ victim ∈ c.photon_chamber.map Prod.fst,
      (beam_in c key data tNow tScan).photon_chamber =
        c.photon_chamber.eraseP (fun p => p.1 == victim) ++ [(key, data)] ∧
      (beam_in c key data tNow tScan).photon_chamber.length = c.max_photons ∧
      ∀ k ∈ c.photon_chamber.map Prod.fst,
        resonanceScore c tScan victim ≤ resonanceScore c tScan k := by
  have hchne : c.photon_chamber ≠ [] := by
    intro h
    rw [h] at hcap
    simp at hcap
    omega
  have hfull : c.photon_chamber.length ≥ c.max_photons := le_of_eq hcap.symm
  obtain ⟨v, hvmem, hmin, hcham, hlen⟩ := evictIfFull_evicts c tScan hfull hchne hne
  have hch := beam_in_new_chamber c key data tNow tScan (by simp [hnew])
  refine ⟨v, hvmem, ?_, ?_, hmin⟩
  · rw [hch, hcham]
  · rw [hch]
    simp only [List.length_append, List.length_cons, List.length_nil]
    omega

/-- C6 witness: a concrete capacity-1 cache with the non-empty occupant `b`;
inserting `a` evicts `b` and keeps the size at capacity. -/
theorem claim_C6_witness :
    ∃ victim ∈ ["b"],
      (beam_in (beam_in (initCache 1) "b" [1] 0 0) "a" [2] 0 0).photon_chamber
        = [("b", ([1] : Bytes))].eraseP (fun p => p.1 == victim) ++ [("a", [2])] ∧
      (beam_in (beam_in (initCache 1) "b" [1] 0 0) "a" [2] 0 0).photon_chamber.length
        = 1 ∧
      ∀ k ∈ ["b"],
        resonanceScore (beam_in (initCache 1) "b" [1] 0 0) 0 victim ≤
          resonanceScore (beam_in (initCache 1) "b" [1] 0 0) 0 k :=
  claim_C6_amended (beam_in (initCache 1) "b" [1] 0 0) "a" [2] 0 0
    (by decide) (by decide) (by decide) (by decide)

/-- Invariant preservation for `beam_in` under non-empty keys: capacity is
unchanged, the size bound `max capacity 1` holds, and all keys stay
non-empty. -/
theorem beam_in_inv (c : CrystallineCache) (k : String) (d : Bytes)
    (t1 t2 : ℚ) (hk : k ≠ "")
    (h1 : c.photon_chamber.length ≤ max c.max_photons 1)
    (h2 : ∀ p ∈ c.photon_chamber, p.1 ≠ "") :
    (beam_in c k d t1 t2).max_photons = c.max_photons ∧
    (beam_in c k d t1 t2).photon_chamber.length ≤ max c.max_photons 1 ∧
    ∀ p ∈ (beam_in c k d t1 t2).photon_chamber, p.1 ≠ "" := by
  refine ⟨beam_in_max c k d t1 t2, ?_⟩
  by_cases hmem : (c.photon_chamber.lookup k).isSome
  · rw [beam_in_overwrite_chamber c k d t1 t2 hmem]
    refine ⟨by simpa using h1, ?_⟩
    intro p hp
    simp only [List.mem_map] at hp
    obtain ⟨q, hq, hqp⟩ := hp
    by_cases hqk : (q.1 == k) = true
    · rw [if_pos hqk] at hqp
      rw [← hqp]
      exact hk
    · rw [if_neg hqk] at hqp
      rw [← hqp]
      exact h2 _ hq
  · rw [beam_in_new_chamber c k d t1 t2 hmem]
    have hkeys : ∀ p ∈ (evictIfFull c t2).photon_chamber, p.1 ≠ "" :=
      fun p hp => h2 _ (evictIfFull_chamber_subset c t2 _ hp)
    have hmems : ∀ p ∈ (evictIfFull c t2).photon_chamber ++ [(k, d)], p.1 ≠ "" := by
      intro p hp
      rcases List.mem_append.mp hp with hp | hp
      · exact hkeys _ hp
      · simp at hp
        rw [hp]
        exact hk
    refine ⟨?_, hmems⟩
    simp only [List.length_append, List.length_cons, List.length_nil]
    by_cases hcap : c.photon_chamber.length ≥ c.max_photons
    · rcases eq_or_ne c.photon_chamber [] with hch | hch
      · rw [evictIfFull_of_nil c t2 hch, hch]
        simp
      · obtain ⟨v, _, _, _, hlen⟩ := evictIfFull_evicts c t2 hcap hch h2
        have hmax : c.photon_chamber.length ≤ max c.max_photons 1 := h1
        omega
    · rw [evictIfFull_of_small c t2 hcap]
      have : c.photon_chamber.length < c.max_photons := not_le.mp hcap
      have : c.max_photons ≤ max c.max_photons 1 := le_max_left _ _
      omega

theorem beam_out_state (c : CrystallineCache) (k : String) (t : ℚ) :
    ((beam_out c k t).2).photon_chamber = c.photon_chamber ∧
    ((beam_out c k t).2).max_photons = c.max_photons := by
  unfold beam_out
  dsimp only
  cases List.lookup k c.photon_chamber <;> exact ⟨rfl, rfl⟩

/-- Invariant for any run of cache operations whose insertions avoid the
empty-string key. -/
theorem runOps_inv (ops : List CacheOp) :
    ∀ c : CrystallineCache, (∀ op ∈ ops, opKeyOk op = true) →
      c.photon_chamber.length ≤ max c.max_photons 1 →
      (∀ p ∈ c.photon_chamber, p.1 ≠ "") →
      (runOps c ops).max_photons = c.max_photons ∧
      (runOps c ops).photon_chamber.length ≤ max c.max_photons 1 ∧
      ∀ p ∈ (runOps c ops).photon_chamber, p.1 ≠ "" := by
  induction ops with
  | nil =>
    intro c _ h1 h2
    exact ⟨rfl, h1, h2⟩
  | cons op rest ih =>
    intro c hok h1 h2
    have hop : opKeyOk op = true := hok op (List.mem_cons_self _ _)
    have hrest : ∀ o ∈ rest, opKeyOk o = true :=
      fun o ho => hok o (List.mem_cons_of_mem _ ho)
    have hstep :
        (applyOp c op).max_photons = c.max_photons ∧
        (applyOp c op).photon_chamber.length ≤ max c.max_photons 1 ∧
        ∀ p ∈ (applyOp c op).photon_chamber, p.1 ≠ "" := by
      cases op with
      | beamIn k d u1 u2 =>
        have hk : k ≠ "" := by
          simpa [opKeyOk] using hop
        exact beam_in_inv c k d u1 u2 hk h1 h2
      | beamOut k u =>
        obtain ⟨hc, hm⟩ := beam_out_state c k u
        refine ⟨hm, ?_, ?_⟩
        · rw [applyOp, hc]
          exact h1
        · intro p hp
          rw [applyOp, hc] at hp
          exact h2 _ hp
      | collapseAll =>
        refine ⟨rfl, ?_, ?_⟩
        · simp [applyOp, collapse_all]
        · intro p hp
          simp [applyOp, collapse_all] at hp
    have hrun : runOps c (op :: rest) = runOps (applyOp c op) rest := rfl
    rw [hrun]
    obtain ⟨hm, hl, hk⟩ := hstep
    have hl' : (applyOp c op).photon_chamber.length ≤
        max (applyOp c op).max_photons 1 := by
      rw [hm]
      exact hl
    obtain ⟨im, il, ik⟩ := ih (applyOp c op) hrest hl' hk
    refine ⟨im.trans hm, ?_, ik⟩
    rw [hm] at il
    exact il

/-- C10 counterexample: at capacity 1, beaming in the empty-string key and
then a second distinct key leaves two entries in the chamber, exceeding the
capacity bound the claim states for every capacity at least 1. -/
theorem claim_C10_counterexample :
    (initCache 1).max_photons = 1 ∧
    (runOps (initCache 1)
      [.beamIn "" [1] 0 0, .beamIn "a" [2] 0 0]).photon_chamber.length = 2 := by
  constructor
  · rfl
  · decide

/-- C10 amended: provided every inserted key is non-empty, the chamber never
holds more than `max C 1` entries after any sequence of `beam_in`,
`beam_out` and `collapse_all` from a fresh cache of capacity `C` (so for
`C ≥ 1` the bound is `C`, and for the edge capacity `C = 0` it is one
entry). -/
theorem claim_C10_amended (C : Nat) (ops : List CacheOp)
    (hops : ∀ op ∈ ops, opKeyOk op = true) :
    (runOps (initCache C) ops).photon_chamber.length ≤ max C 1 :=
  (runOps_inv ops (initCache C) hops (by simp [initCache])
    (by simp [initCache])).2.1

/-- C10 witness: a concrete run with non-empty keys at capacity 1 stays
within the bound. -/
theorem claim_C10_witness :
    (runOps (initCache 1)
      [.beamIn "a" [1] 0 0, .beamIn "b" [2] 0 1]).photon_chamber.length ≤
        max 1 1 :=
  claim_C10_amended 1 [.beamIn "a" [1] 0 0, .beamIn "b" [2] 0 1] (by decide)

/-- One row of the `photon_ledger` table. -/
structure LedgerRow where
  event_sequence : Nat
  nebula_coord : String
  galaxy_zone : String
  photon_packet : Bytes
  merkle_proof : String
  pulse_timestamp : ℚ
  event_type : String
  is_active : Bool

/-- State of a `PhotonVault`: the ledger rows in insertion order, the next
autoincrement sequence number, the cache, and the in-process event
counter. -/
structure PhotonVault where
  ledger : List LedgerRow
  next_seq : Nat
  crystal_cache : CrystallineCache
  event_counter : Nat

/-- A fresh vault over an empty database file (`_forge_vault` creates the
empty schema; SQLite autoincrement starts at 1). -/
def initVault (cache_size : Nat) : PhotonVault :=
  ⟨[], 1, initCache cache_size, 0⟩

/-- Effect on one row of the SQL statement `UPDATE photon_ledger SET
is_active = 0 WHERE nebula_coord = ? AND is_active = 1`. -/
def deactivateRow (coord : String) (r : LedgerRow) : LedgerRow :=
  if r.nebula_coord == coord && r.is_active then { r with is_active := false }
  else r

/-- The whole-table effect of the deactivating UPDATE. -/
def deactivate (rows : List LedgerRow) (coord : String) : List LedgerRow :=
  rows.map (deactivateRow coord)

/-- The query `SELECT ... WHERE nebula_coord = ? AND is_active = 1 ORDER BY
event_sequence DESC LIMIT 1`: the matching row of greatest sequence
number. -/
def activeLatest (rows : List LedgerRow) (coord : String) : Option LedgerRow :=
  (rows.filter fun r => r.nebula_coord == coord && r.is_active).foldl
    (fun acc r =>
      match acc with
      | none => some r
      | some a => if a.event_sequence < r.event_sequence then some r else some a)
    none

/-- Number of active events for a coordinate in the backing store. -/
def countActive (rows : List LedgerRow) (coord : String) : Nat :=
  (rows.filter fun r => r.nebula_coord == coord && r.is_active).length

/-- Python exceptions that can escape the vault operations in this model. -/
inductive PyExc where
  | unboundLocal
  | corruptPacket
deriving DecidableEq

/-- `PhotonVault.materialize`.  In the source the whole body runs in a
`try` whose handler executes `conduit.execute("ROLLBACK")`; the only
failure the model retains is `encode_photon_packet` raising (before the
local `conduit` is ever assigned), in which case the handler itself raises
`UnboundLocalError`, which escapes to the caller.  `pulse` is the
`time.time()` read for the row timestamp; `tBeam`/`tScan` are the reads
inside `beam_in`. -/
def materialize (H compress : Bytes → Bytes) (v : PhotonVault)
    (nebula_coord galaxy_zone : String) (payload : Bytes)
    (pulse tBeam tScan : ℚ) : Except PyExc (PhotonVault × Bool) :=
  match encode_photon_packet compress payload true with
  | none => Except.error PyExc.unboundLocal
  | some encoded_packet =>
    let merkle_proof := compute_merkle_root H (chunk256 payload)
    let newRow : LedgerRow :=
      ⟨v.next_seq, nebula_coord, galaxy_zone, encoded_packet, merkle_proof,
        pulse, "MATERIALIZE", true⟩
    Except.ok
      ({ ledger := deactivate v.ledger nebula_coord ++ [newRow],
         next_seq := v.next_seq + 1,
         crystal_cache := beam_in v.crystal_cache nebula_coord payload tBeam tScan,
         event_counter := v.event_counter + 1 }, true)

/-- `PhotonVault.dematerialize`.  First `beam_out` (time `tOut`), then the
metadata query on a cache hit; on a cache miss, or when the metadata query
finds no active row, the full query runs, decoding the stored packet
(`zlib.error` escaping as a corrupt-packet failure) and repopulating the
cache (times `tBeam`, `tScan`). -/
def dematerialize (decompress : Bytes → Option Bytes) (v : PhotonVault)
    (nebula_coord : String) (tOut tBeam tScan : ℚ) :
    Except PyExc (Option (String × Bytes × ℚ) × PhotonVault) :=
  let r0 := beam_out v.crystal_cache nebula_coord tOut
  let v1 : PhotonVault := { v with crystal_cache := r0.2 }
  match r0.1 with
  | some cached =>
    match activeLatest v1.ledger nebula_coord with
    | some row =>
      Except.ok (some (row.galaxy_zone, cached, row.pulse_timestamp), v1)
    | none =>
      match activeLatest v1.ledger nebula_coord with
      | some row =>
        match decode_photon_packet decompress row.photon_packet with
        | Except.error _ => Except.error PyExc.corruptPacket
        | Except.ok payload =>
          Except.ok (some (row.galaxy_zone, payload, row.pulse_timestamp),
            { v1 with crystal_cache :=
                beam_in v1.crystal_cache nebula_coord payload tBeam tScan })
      | none => Except.ok (none, v1)
  | none =>
    match activeLatest v1.ledger nebula_coord with
    | some row =>
      match decode_photon_packet decompress row.photon_packet with
      | Except.error _ => Except.error PyExc.corruptPacket
      | Except.ok payload =>
        Except.ok (some (row.galaxy_zone, payload, row.pulse_timestamp),
          { v1 with crystal_cache :=
              beam_in v1.crystal_cache nebula_coord payload tBeam tScan })
    | none => Except.ok (none, v1)

/-- `PhotonVault.purge_coordinate`: deactivate any active events for the
coordinate, then `INSERT ... SELECT nebula_coord, galaxy_zone, X'00', '',
?, 'PURGE', 0 FROM photon_ledger WHERE nebula_coord = ? LIMIT 1` (the first
matching row in table order), commit, and return `True`; in the fault-free
model the exception branch returning `False` is unreachable. -/
def purge_coordinate (v : PhotonVault) (nebula_coord : String) (pulse : ℚ) :
    PhotonVault × Bool :=
  let rows1 := deactivate v.ledger nebula_coord
  match rows1.find? (fun r => r.nebula_coord == nebula_coord) with
  | some r =>
    ({ v with
        ledger := rows1 ++
          [⟨v.next_seq, r.nebula_coord, r.galaxy_zone, [0], "", pulse,
            "PURGE", false⟩],
        next_seq := v.next_seq + 1 }, true)
  | none => ({ v with ledger := rows1 }, true)

theorem deactivateRow_not_active (coord : String) (r : LedgerRow) :
    ((deactivateRow coord r).nebula_coord == coord &&
      (deactivateRow coord r).is_active) = false := by
  unfold deactivateRow
  by_cases h : (r.nebula_coord == coord && r.is_active) = true
  · rw [if_pos h]
    simp
  · rw [if_neg h]
    simpa using h

/-- After the deactivating UPDATE, no row for the coordinate is active. -/
theorem filter_active_deactivate (rows : List LedgerRow) (coord : String) :
    (deactivate rows coord).filter
      (fun r => r.nebula_coord == coord && r.is_active) = [] := by
  rw [List.filter_eq_nil_iff]
  intro a ha
  obtain ⟨r, _, rfl⟩ := List.mem_map.mp ha
  simp [deactivateRow_not_active]

theorem deactivate_eq_self (rows : List LedgerRow) (coord : String)
    (h : ∀ r ∈ rows, r.nebula_coord ≠ coord) : deactivate rows coord = rows := by
  unfold deactivate
  rw [List.map_congr_left (g := fun a => a), List.map_id']
  intro r hr
  unfold deactivateRow
  rw [if_neg]
  simp [h r hr]

/-- After a write, the latest-active query returns exactly the new row. -/
theorem activeLatest_deactivate_append (rows : List LedgerRow)
    (coord : String) (row : LedgerRow) (hcoord : row.nebula_coord = coord)
    (hact : row.is_active = true) :
    activeLatest (deactivate rows coord ++ [row]) coord = some row := by
  unfold activeLatest
  rw [List.filter_append, filter_active_deactivate]
  simp [hcoord, hact]

theorem countActive_deactivate_append (rows : List LedgerRow)
    (coord : String) (row : LedgerRow) (hcoord : row.nebula_coord = coord)
    (hact : row.is_active = true) :
    countActive (deactivate rows coord ++ [row]) coord = 1 := by
  unfold countActive
  rw [List.filter_append, filter_active_deactivate]
  simp [hcoord, hact]

theorem activeLatest_of_countActive_zero (rows : List LedgerRow)
    (coord : String) (h : countActive rows coord = 0) :
    activeLatest rows coord = none := by
  unfold countActive at h
  rw [List.length_eq_zero] at h
  unfold activeLatest
  rw [h]
  rfl

theorem beam_out_fst (c : CrystallineCache) (k : String) (t : ℚ) :
    (beam_out c k t).1 = c.photon_chamber.lookup k := by
  unfold beam_out
  dsimp only
  cases List.lookup k c.photon_chamber <;> rfl

theorem lookup_map_overwrite (key : String) (d : Bytes) :
    ∀ l : List (String × Bytes), (l.lookup key).isSome →
      (l.map fun p => if p.1 == key then (key, d) else p).lookup key =
        some d := by
  intro l
  induction l with
  | nil => simp
  | cons p rest ih =>
    obtain ⟨a, b⟩ := p
    intro hs
    by_cases hak : a = key
    · subst hak
      simp
    · have h1 : ((a, b).1 == key) = false := by simp [hak]
      have h2 : (key == a) = false := by simp [Ne.symm hak]
      simp only [List.map_cons, h1, Bool.false_eq_true, if_false]
      rw [List.lookup_cons, h2]
      apply ih
      rw [List.lookup_cons, h2] at hs
      exact hs

/-- After `beam_in`, the chamber maps the inserted key to the inserted
payload. -/
theorem beam_in_lookup_self (c : CrystallineCache) (key : String)
    (d : Bytes) (t1 t2 : ℚ) :
    (beam_in c key d t1 t2).photon_chamber.lookup key = some d := by
  by_cases hmem : (c.photon_chamber.lookup key).isSome
  · rw [beam_in_overwrite_chamber c key d t1 t2 hmem]
    exact lookup_map_overwrite key d _ hmem
  · rw [beam_in_new_chamber c key d t1 t2 hmem]
    have hnone : (c.photon_chamber.lookup key) = none :=
      Option.not_isSome_iff_eq_none.mp hmem
    have hev : ((evictIfFull c t2).photon_chamber.lookup key) = none := by
      rw [List.lookup_eq_none_iff] at hnone ⊢
      exact fun p hp => hnone p (evictIfFull_chamber_subset c t2 p hp)
    rw [List.lookup_append, hev]
    simp

/-- C1: when encoding succeeds, `materialize` returns `True`, leaves
exactly one active event for the key in the backing store, and a subsequent
`dematerialize` of the key returns the zone, the payload and the write
timestamp. -/
theorem claim_C1 (H compress : Bytes → Bytes)
    (decompress : Bytes → Option Bytes) (v : PhotonVault)
    (coord zone : String) (payload : Bytes)
    (pulse tBeam tScan tOut tBeam2 tScan2 : ℚ)
    (henc : (encode_photon_packet compress payload true).isSome = true) :
    ∃ v', materialize H compress v coord zone payload pulse tBeam tScan =
        Except.ok (v', true) ∧
      countActive v'.ledger coord = 1 ∧
      ∃ v'', dematerialize decompress v' coord tOut tBeam2 tScan2 =
        Except.ok (some (zone, payload, pulse), v'') := by
  obtain ⟨pkt, hpkt⟩ := Option.isSome_iff_exists.mp henc
  refine ⟨⟨deactivate v.ledger coord ++
      [⟨v.next_seq, coord, zone, pkt, compute_merkle_root H (chunk256 payload),
        pulse, "MATERIALIZE", true⟩],
    v.next_seq + 1,
    beam_in v.crystal_cache coord payload tBeam tScan,
    v.event_counter + 1⟩, ?_, ?_, ?_⟩
  · unfold materialize
    rw [hpkt]
  · exact countActive_deactivate_append v.ledger coord _ rfl rfl
  · unfold dematerialize
    dsimp only
    rw [beam_out_fst, beam_in_lookup_self,
      activeLatest_deactivate_append v.ledger coord _ rfl rfl]
    exact ⟨_, rfl⟩

/-- C1 witness: a concrete put/get round-trip through the vault. -/
theorem claim_C1_witness :
    ∃ v', materialize (fun _ => []) (fun b => b) (initVault 4) "k" "z" [7]
        0 0 0 = Except.ok (v', true) ∧
      countActive v'.ledger "k" = 1 ∧
      ∃ v'', dematerialize (fun b => some b) v' "k" 0 0 0 =
        Except.ok (some ("z", [7], 0), v'') :=
  claim_C1 (fun _ => []) (fun b => b) (fun b => some b) (initVault 4)
    "k" "z" [7] 0 0 0 0 0 0 (by decide)

/-- C3: when the backing store holds no active event for a key,
`dematerialize` returns `None` — even when the cache still holds bytes for
the key, because the cache hit is always cross-checked against backing
store activity. -/
theorem claim_C3 (decompress : Bytes → Option Bytes) (v : PhotonVault)
    (coord : String) (tOut tBeam tScan : ℚ)
    (h : countActive v.ledger coord = 0) :
    ∃ v', dematerialize decompress v coord tOut tBeam tScan =
      Except.ok (none, v') := by
  have hal : activeLatest v.ledger coord = none :=
    activeLatest_of_countActive_zero v.ledger coord h
  unfold dematerialize
  dsimp only
  cases hc : (beam_out v.crystal_cache coord tOut).1 with
  | some cached =>
    rw [hal]
    exact ⟨_, rfl⟩
  | none =>
    rw [hal]
    exact ⟨_, rfl⟩

/-- C3 witness: a vault whose ledger holds only an inactive row for the key
while the cache still holds bytes for it; `dematerialize` still reports
`None`. -/
theorem claim_C3_witness :
    ∃ v', dematerialize (fun b => some b)
      ⟨[⟨1, "k", "z", [9], "", 0, "MATERIALIZE", false⟩], 2,
        ⟨4, [("k", [9])], setFn (fun _ => 0) "k" 1, setFn (fun _ => 0) "k" 0,
          0, 0⟩, 1⟩
      "k" 0 0 0 = Except.ok (none, v') :=
  claim_C3 (fun b => some b)
    ⟨[⟨1, "k", "z", [9], "", 0, "MATERIALIZE", false⟩], 2,
      ⟨4, [("k", [9])], setFn (fun _ => 0) "k" 1, setFn (fun _ => 0) "k" 0,
        0, 0⟩, 1⟩
    "k" 0 0 0 (by decide)

/-- C2 counterexample: on a key with no active event, `purge_coordinate`
returns `True` (the claim requires `False`); and on a key having only an
inactive row it additionally inserts a new row (the claim requires no
mutation). -/
theorem claim_C2_counterexample :
    (countActive (initVault 4).ledger "k" = 0 ∧
      (purge_coordinate (initVault 4) "k" 0).2 = true) ∧
    (countActive
        (⟨[⟨1, "k", "z", [0], "", 0, "MATERIALIZE", false⟩], 2, initCache 4, 1⟩ :
          PhotonVault).ledger "k" = 0 ∧
      (purge_coordinate
        ⟨[⟨1, "k", "z", [0], "", 0, "MATERIALIZE", false⟩], 2, initCache 4, 1⟩
        "k" 0).1.ledger.length = 2) := by
  refine ⟨⟨?_, ?_⟩, ?_, ?_⟩ <;> decide

/-- C2 amended: `purge_coordinate` returns `True` whenever the transaction
commits (always, in this fault-free model), regardless of whether an active
event existed; for a key with no events at all it leaves the vault
unchanged, but for a key with only inactive history it still inserts an
inactive PURGE row. -/
theorem claim_C2_amended (v : PhotonVault) (coord : String) (t : ℚ) :
    (purge_coordinate v coord t).2 = true ∧
    ((∀ r ∈ v.ledger, r.nebula_coord ≠ coord) →
      (purge_coordinate v coord t).1 = v) := by
  constructor
  · unfold purge_coordinate
    dsimp only
    cases List.find? (fun r => r.nebula_coord == coord)
      (deactivate v.ledger coord) <;> rfl
  · intro h
    have hdeact : deactivate v.ledger coord = v.ledger :=
      deactivate_eq_self v.ledger coord h
    have hfind : v.ledger.find? (fun r => r.nebula_coord == coord) = none := by
      rw [List.find?_eq_none]
      intro r hr
      simp [h r hr]
    unfold purge_coordinate
    dsimp only
    rw [hdeact, hfind]

/-- C2 amended witness: purging a key from a fresh empty vault returns
`True` and changes nothing. -/
theorem claim_C2_amended_witness :
    (purge_coordinate (initVault 3) "k" 0).2 = true ∧
    (purge_coordinate (initVault 3) "k" 0).1 = initVault 3 :=
  ⟨(claim_C2_amended (initVault 3) "k" 0).1,
    (claim_C2_amended (initVault 3) "k" 0).2 (by simp [initVault])⟩

/-- C8: when the compressed payload does not fit the u16 header field,
encoding raises before the local `conduit` is assigned and the exception
handler itself raises `UnboundLocalError`, so `materialize` surfaces an
unhandled exception instead of returning a boolean. -/
theorem claim_C8 (H compress : Bytes → Bytes) (v : PhotonVault)
    (coord zone : String) (payload : Bytes) (pulse tBeam tScan : ℚ)
    (h : 65535 < (compress payload).length) :
    materialize H compress v coord zone payload pulse tBeam tScan =
      Except.error PyExc.unboundLocal := by
  unfold materialize
  rw [encode_compress_none compress payload h]

/-- C8 witness: a concrete oversize-compressing payload makes `materialize`
surface the unbound-local failure. -/
theorem claim_C8_witness :
    materialize (fun b => b) (fun _ => List.replicate 65536 0) (initVault 2)
      "k" "z" [7] 0 0 0 = Except.error PyExc.unboundLocal :=
  claim_C8 (fun b => b) (fun _ => List.replicate 65536 0) (initVault 2)
    "k" "z" [7] 0 0 0 (by rw [List.length_replicate]; omega)

end Thalos
